import Mathlib

/-!
# Verification of the Stocks_TSA conditional-performance estimator

Shallow embedding of `src/modeling/train_Bayes.py` and `src/dataset.py`.

Modelling conventions:
* A retrieved price history is a `Frame`: a date index (dates as `Int`,
  days since an epoch, so `pd.Timedelta(days=1)` is `+ 1`) together with
  named columns of rational values.  Prices and probabilities are `ℚ`
  (the Python code computes with floats; all quantities appearing in the
  claims are exact rationals of small height).
* A pandas `Series.pct_change()` is `pct_change`: the first entry is NaN,
  entry `i` is `close[i]/close[i-1] - 1`.  NaN is `Option.none`; the
  pandas comparison `NaN > t` is `False`, which `performing` encodes.
* `.mean()` of a boolean series is `boolMean`: the fraction of `true`
  entries, NaN (`none`) on the empty series.
* `.loc[a:b]` slicing on a monotonically increasing date index is
  `dropWhile (· < a)` followed by `takeWhile (· ≤ b)`, exactly the
  `searchsorted` bounds pandas uses on a monotonic index.
* Boolean-mask indexing `dfA[maskB]` after `reset_index` aligns the mask
  with `dfA`'s positional index: if the mask is at least as long as the
  frame the extra entries are ignored, if it is shorter pandas raises an
  uncaught `IndexingError`.  `maskSelect` returns `none` in that case.
* A Python function that can terminate with an uncaught exception is
  embedded with result type `Option (Option ℚ)`: the outer `none` is an
  uncaught exception, `some none` is a returned NaN, `some (some q)` is a
  returned finite value.
* Network retrieval is out of scope; every embedded entry point takes the
  provider's data as an explicit environment (`hist : String → Frame`,
  `info : String → Option …`).
-/

/-- A date-indexed closing-price series: (date, close) rows in the order
they appear in the retrieved frame. -/
abbrev Series : Type := List (Int × ℚ)

/-- The date column of a series. -/
def datesOf (s : Series) : List Int := s.map Prod.fst

/-- The price column of a series. -/
def closesOf (s : Series) : List ℚ := s.map Prod.snd

/-- Helper for `pct_change`: returns of `l` relative to the running
previous price, starting from `prev`. -/
def pct_change_go : ℚ → List ℚ → List (Option ℚ)
  | _, [] => []
  | prev, c :: cs => some (c / prev - 1) :: pct_change_go c cs

/-- pandas `Series.pct_change()`: same length as the input, first entry
NaN, entry `i` is `close[i]/close[i-1] - 1`. -/
def pct_change : List ℚ → List (Option ℚ)
  | [] => []
  | c :: cs => none :: pct_change_go c cs

/-- pandas `daily_return > threshold`: `NaN > threshold` is `False`. -/
def performing (threshold : ℚ) (r : Option ℚ) : Bool :=
  match r with
  | none => false
  | some q => decide (threshold < q)

/-- pandas `.mean()` on a boolean series: fraction of `true` entries,
NaN (`none`) on the empty series. -/
def boolMean (bs : List Bool) : Option ℚ :=
  if bs.isEmpty then none
  else some ((bs.countP id : ℚ) / (bs.length : ℚ))

/-- The `Performing` column of a (sliced) series: the thresholded
percentage changes of its closes. -/
def perf_list (threshold : ℚ) (s : Series) : List Bool :=
  (pct_change (closesOf s)).map (performing threshold)

/-- `price_data.index.min()`: the minimum date of a series (0 on the
empty series, which no caller reaches). -/
def minDate : Series → Int
  | [] => 0
  | p :: ps => ps.foldl (fun m q => min m q.1) p.1

/-- `price_data.index.max()`: the maximum date of a series. -/
def maxDate : Series → Int
  | [] => 0
  | p :: ps => ps.foldl (fun m q => max m q.1) p.1

/-- `start_date = max(A.index.min(), B.index.min())` in `p_conditional`. -/
def cond_start (A B : Series) : Int := max (minDate A) (minDate B)

/-- `last_date = min(A.index.max(), B.index.max())` in `p_conditional`. -/
def cond_last (A B : Series) : Int := min (maxDate A) (maxDate B)

/-- `price_data_A.loc[start_date + pd.Timedelta(days=1):]`: series A as
sliced by `p_conditional` (lower bound only). -/
def alignedA (A B : Series) : Series :=
  A.dropWhile (fun p => decide (p.1 < cond_start A B + 1))

/-- `price_data_B.loc[start_date : last_date - pd.Timedelta(days=1)]`:
series B as sliced by `p_conditional` (both bounds). -/
def alignedB (A B : Series) : Series :=
  (B.dropWhile (fun p => decide (p.1 < cond_start A B))).takeWhile
    (fun p => decide (p.1 ≤ cond_last A B - 1))

/-- The subsequence of `xs` at the positions where `mask` is true
(positional boolean indexing, mask at least as long as `xs`). -/
def selectWhere {α : Type} (mask : List Bool) (xs : List α) : List α :=
  (xs.zip mask).filterMap (fun p => if p.2 then some p.1 else none)

/-- pandas boolean-mask indexing `xs[mask]` after `reset_index`: the mask
is reindexed to `xs`'s positional index; a mask shorter than `xs` leaves
unmatched positions and raises an uncaught `IndexingError` (`none`). -/
def maskSelect {α : Type} (mask : List Bool) (xs : List α) : Option (List α) :=
  if xs.length ≤ mask.length then some (selectWhere mask xs) else none

/-- `price_data_A[price_data_B["Performing"]]["Performing"]` of
`p_conditional`: series A's performance indicators at the positions where
series B performs, `none` when the mask is unalignable. -/
def selectedPerf (A B : Series) (threshold : ℚ) : Option (List Bool) :=
  maskSelect (perf_list 0 (alignedB A B)) (perf_list threshold (alignedA A B))

/-- Series-level core of `p_conditional` (`train_Bayes.py` lines 54-71),
after both `Close` frames have been retrieved.  Outer `none` models an
uncaught exception, `some none` a returned NaN. -/
def p_conditional_core (A B : Series) (threshold : ℚ) : Option (Option ℚ) :=
  if A.isEmpty || B.isEmpty then none
  else
    match selectedPerf A B threshold with
    | none => none
    | some sel => some (boolMean sel)

/-- The probability computation shared by `p_stock_performing`
(`train_Bayes.py` lines 33-35): thresholded percentage changes of the
closes, first row dropped by `iloc[1:]`, then the boolean mean. -/
def marginal_prob (closes : List ℚ) : Option ℚ :=
  boolMean (((pct_change closes).map (performing 0)).drop 1)

/-- A retrieved pandas price frame: a date index and named columns. -/
structure Frame where
  dates : List Int
  cols : List (String × List ℚ)

/-- pandas column access `df[name]`, `none` modelling a `KeyError`. -/
def lookupCol (name : String) (f : Frame) : Option (List ℚ) :=
  (f.cols.find? (fun c => c.1 = name)).map Prod.snd

/-- `dataset.get_price_all_time` (`dataset.py` lines 171-212): selects a
price column of the ticker's full history.  The Python dict literal
`valid_price_types` evaluates all four single-column entries eagerly, so
a history missing any of them raises a `KeyError` that the handler turns
into `None`; an invalid `price_type` raises a `ValueError` that is caught
and also turned into `None`.  The network fetch is the environment
`hist`. -/
def get_price_all_time (hist : String → Frame) (ticker price_type : String) :
    Option Frame :=
  let price_df := hist ticker
  match lookupCol "Open" price_df, lookupCol "High" price_df,
      lookupCol "Low" price_df, lookupCol "Close" price_df with
  | some o, some hi, some lo, some c =>
    if price_type = "All" then some price_df
    else if price_type = "Open" then some ⟨price_df.dates, [("Open", o)]⟩
    else if price_type = "Close" then some ⟨price_df.dates, [("Close", c)]⟩
    else if price_type = "High" then some ⟨price_df.dates, [("High", hi)]⟩
    else if price_type = "Low" then some ⟨price_df.dates, [("Low", lo)]⟩
    else none
  | _, _, _, _ => none

/-- `train_Bayes.p_stock_performing` (lines 19-36): retrieves the price
data for `price_type` but always reads the `Close` column from it.
Outer `none`: the Python call dies with an uncaught error (`TypeError`
on `None` or `KeyError` on a frame without a `Close` column). -/
def p_stock_performing (hist : String → Frame) (ticker price_type : String) :
    Option (Option ℚ) :=
  match get_price_all_time hist ticker price_type with
  | none => none
  | some price_data =>
    match lookupCol "Close" price_data with
    | none => none
    | some closes => some (marginal_prob closes)

/-- `train_Bayes.p_conditional` (lines 39-71) at the ticker level: fetch
both `Close` histories, then run the series-level core. -/
def p_conditional (hist : String → Frame) (tickerA tickerB : String)
    (threshold : ℚ) : Option (Option ℚ) := do
  let fA ← get_price_all_time hist tickerA "Close"
  let fB ← get_price_all_time hist tickerB "Close"
  let cA ← lookupCol "Close" fA
  let cB ← lookupCol "Close" fB
  p_conditional_core (fA.dates.zip cA) (fB.dates.zip cB) threshold

/-- NaN-propagating product of two possibly-NaN values (dead-code line
90 of `train_Bayes.py`; the float result is never used). -/
def nanMul (a b : Option ℚ) : Option ℚ :=
  match a, b with
  | some x, some y => some (x * y)
  | _, _ => none

/-- NaN-propagating quotient; a zero divisor gives a non-finite float in
Python, modelled as `none` (the value is dead code either way). -/
def nanDiv (a b : Option ℚ) : Option ℚ :=
  match a, b with
  | some x, some y => if y = 0 then none else some (x / y)
  | _, _ => none

/-- `train_Bayes.bayes_theorem` (lines 74-91): computes both marginals
and the conditional probability, computes `prob_B_given_A` by Bayes'
rule into a local that is never read, and returns `prob_A_given_B`. -/
def bayes_theorem (hist : String → Frame) (tickerA tickerB : String) :
    Option (Option ℚ) := do
  let prob_A ← p_stock_performing hist tickerA "Close"
  let prob_B ← p_stock_performing hist tickerB "Close"
  let prob_A_given_B ← p_conditional hist tickerA tickerB 0
  let _prob_B_given_A := nanDiv (nanMul prob_A_given_B prob_A) prob_B
  pure prob_A_given_B

/-- The accumulation loop of `get_conditional_performance_graph`
(lines 111-116): `performance_prob` starts empty and one conditional
probability is appended per threshold, in list order. -/
def performance_prob_loop (hist : String → Frame) (tickerA tickerB : String)
    (acc : List (Option (Option ℚ))) : List ℚ → List (Option (Option ℚ))
  | [] => acc
  | t :: ts =>
    performance_prob_loop hist tickerA tickerB
      (acc ++ [p_conditional hist tickerA tickerB t]) ts

/-- `train_Bayes.get_conditional_performance_graph` (lines 94-122),
restricted to the data it computes: the list of conditional
probabilities fed to the plot (the plotting itself is an external
collaborator and returns nothing). -/
def get_conditional_performance_graph (hist : String → Frame)
    (tickerA tickerB : String) (threshold_list : List ℚ) :
    List (Option (Option ℚ)) :=
  performance_prob_loop hist tickerA tickerB [] threshold_list

/-- The defined entries of a pandas return series: the percentage
changes with the leading NaN dropped. -/
def defined_returns (closes : List ℚ) : List ℚ :=
  (pct_change closes).filterMap id

/-- A value of the mapping returned by `get_fundamentals`: the ticker
string, a numeric metric, or Python `None` for an absent metric. -/
inductive FundVal where
  | str : String → FundVal
  | num : ℚ → FundVal
  | missing : FundVal
deriving DecidableEq

/-- The fixed list of 21 metric names in `dataset.get_fundamentals`
(`dataset.py` lines 49-71). -/
def fundamental_metrics : List String :=
  ["marketCap", "enterpriseValue", "priceToSalesTrailing12Months",
   "priceToBook", "trailingPE", "forwardPE", "profitMargins",
   "returnOnAssets", "returnOnEquity", "earningsQuarterlyGrowth",
   "totalRevenue", "revenueGrowth", "freeCashflow", "totalDebt",
   "debtToEquity", "trailingEps", "forwardEps", "pegRatio",
   "dividendRate", "dividendYield", "payoutRatio"]

/-- `dataset.get_fundamentals` (lines 12-84): builds the result mapping
from the ticker key followed by one entry per metric, absent metrics
getting `None` via `dict.get(metric, None)`.  The environment `info`
is `yf.Ticker(t).info`; `info t = none` models a fetch that raises, in
which case the handler prints and the function returns Python `None`. -/
def get_fundamentals (info : String → Option (List (String × ℚ)))
    (ticker : String) : Option (List (String × FundVal)) :=
  match info ticker with
  | none => none
  | some company_info =>
    some (("ticker", FundVal.str ticker) ::
      fundamental_metrics.map (fun metric =>
        (metric, match company_info.lookup metric with
                 | some v => FundVal.num v
                 | none => FundVal.missing)))

/-! ## Helper lemmas -/

lemma pct_change_go_eq_zipWith (prev : ℚ) (l : List ℚ) :
    pct_change_go prev l =
      List.zipWith (fun p c => some (c / p - 1)) (prev :: l) l := by
  induction l generalizing prev with
  | nil => rfl
  | cons c cs ih => simp [pct_change_go, ih]

lemma filterMap_id_zipWith (g : ℚ → ℚ → ℚ) :
    ∀ a b : List ℚ,
      (List.zipWith (fun p c => some (g p c)) a b).filterMap id =
        List.zipWith g a b := by
  intro a
  induction a with
  | nil => intro b; rfl
  | cons x xs ih =>
    intro b
    cases b with
    | nil => rfl
    | cons y ys => simp [ih]

lemma defined_returns_eq_zipWith (closes : List ℚ) :
    defined_returns closes =
      List.zipWith (fun p c => c / p - 1) closes closes.tail := by
  cases closes with
  | nil => rfl
  | cons c cs =>
    rw [defined_returns, pct_change, pct_change_go_eq_zipWith]
    simp [filterMap_id_zipWith]

lemma performance_prob_loop_eq (hist : String → Frame) (tA tB : String) :
    ∀ (ts : List ℚ) (acc : List (Option (Option ℚ))),
      performance_prob_loop hist tA tB acc ts =
        acc ++ ts.map (p_conditional hist tA tB) := by
  intro ts
  induction ts with
  | nil => intro acc; simp [performance_prob_loop]
  | cons t ts ih => intro acc; rw [performance_prob_loop, ih]; simp

lemma get_price_close_shape (hist : String → Frame) (t : String) :
    get_price_all_time hist t "Close" = none ∨
      ∃ c, get_price_all_time hist t "Close" =
        some ⟨(hist t).dates, [("Close", c)]⟩ := by
  unfold get_price_all_time
  rcases h1 : lookupCol "Open" (hist t) with _ | o
  · exact Or.inl (by simp [h1])
  rcases h2 : lookupCol "High" (hist t) with _ | hi
  · exact Or.inl (by simp [h1, h2])
  rcases h3 : lookupCol "Low" (hist t) with _ | lo
  · exact Or.inl (by simp [h1, h2, h3])
  rcases h4 : lookupCol "Close" (hist t) with _ | c
  · exact Or.inl (by simp [h1, h2, h3, h4])
  · exact Or.inr ⟨c, by simp [h1, h2, h3, h4]⟩

lemma map_fst_comp_keyed {β : Type} (g : String → β) (l : List String) :
    l.map (Prod.fst ∘ fun m => (m, g m)) = l := by
  induction l with
  | nil => rfl
  | cons x xs ih => simp only [List.map_cons, ih]; rfl

lemma lookupCol_close_single (d : List Int) (c : List ℚ) :
    lookupCol "Close" ⟨d, [("Close", c)]⟩ = some c := by
  simp [lookupCol, List.find?]

/-! ## Claim theorems -/

/-- Claim C5: for every price series of length at least 2, the derived
return series has exactly `n - 1` defined entries, and its `i`-th
defined entry is `price[i+1] / price[i] - 1` (the first date has no
defined return, which the leading NaN of `pct_change` encodes). -/
theorem return_series_spec (closes : List ℚ) (h2 : 2 ≤ closes.length) :
    (defined_returns closes).length = closes.length - 1 ∧
    ∀ i : ℕ, (defined_returns closes)[i]? =
      match closes[i]?, closes[i + 1]? with
      | some p, some c => some (c / p - 1)
      | _, _ => none := by
  constructor
  · rw [defined_returns_eq_zipWith, List.length_zipWith, List.length_tail]
    omega
  · intro i
    rw [defined_returns_eq_zipWith, List.getElem?_zipWith,
      List.getElem?_tail]
    rcases closes[i]? with _ | p <;> rcases closes[i + 1]? with _ | c <;> rfl

/-- Witness for C5 at the closes `[100, 102, 101]`. -/
theorem return_series_spec_witness :
    2 ≤ ([100, 102, 101] : List ℚ).length ∧
    ((defined_returns [100, 102, 101]).length =
        ([100, 102, 101] : List ℚ).length - 1 ∧
      ∀ i : ℕ, (defined_returns [100, 102, 101])[i]? =
        match ([100, 102, 101] : List ℚ)[i]?,
            ([100, 102, 101] : List ℚ)[i + 1]? with
        | some p, some c => some (c / p - 1)
        | _, _ => none) :=
  ⟨by simp, return_series_spec [100, 102, 101] (by simp)⟩

/-- Claim C6: the probability sweep of
`get_conditional_performance_graph` yields exactly one conditional
probability per threshold, in input order: the output has the length of
the threshold list and its `i`-th entry is `p_conditional` at the `i`-th
threshold. -/
theorem sweep_thresholds_spec (hist : String → Frame) (tA tB : String)
    (threshold_list : List ℚ) :
    (get_conditional_performance_graph hist tA tB threshold_list).length =
      threshold_list.length ∧
    ∀ i : ℕ,
      (get_conditional_performance_graph hist tA tB threshold_list)[i]? =
        (threshold_list[i]?).map (p_conditional hist tA tB) := by
  rw [get_conditional_performance_graph, performance_prob_loop_eq]
  constructor
  · simp
  · intro i; simp

/-- Claim C8: `bayes_theorem` returns exactly `p_conditional` at the
default threshold 0, for every data environment and every pair of
tickers; the Bayes-inverted `prob_B_given_A` it computes on line 90 is
dead code and never influences the result. -/
theorem bayes_theorem_returns_conditional (hist : String → Frame)
    (tA tB : String) :
    bayes_theorem hist tA tB = p_conditional hist tA tB 0 := by
  rcases get_price_close_shape hist tA with hA | ⟨cA, hA⟩
  · simp [bayes_theorem, p_stock_performing, p_conditional, hA]
  rcases get_price_close_shape hist tB with hB | ⟨cB, hB⟩
  · simp [bayes_theorem, p_stock_performing, p_conditional, hA, hB,
      lookupCol_close_single]
  · simp only [bayes_theorem, p_stock_performing, p_conditional, hA, hB,
      lookupCol_close_single]
    cases p_conditional_core ((hist tA).dates.zip cA)
        ((hist tB).dates.zip cB) 0 <;> simp

/-- Claim C9: whenever retrieval of the provider data succeeds,
`get_fundamentals` returns a mapping whose keys are the ticker key
followed by the 21 fixed metric names, and a metric absent from the
provider data appears with the explicit `None` marker instead of being
omitted. -/
theorem get_fundamentals_keys (info : String → Option (List (String × ℚ)))
    (t : String) (ci : List (String × ℚ)) (h : info t = some ci) :
    ∃ d, get_fundamentals info t = some d ∧
      d.map Prod.fst = "ticker" :: fundamental_metrics ∧
      fundamental_metrics.length = 21 ∧
      ∀ m ∈ fundamental_metrics,
        ci.lookup m = none → (m, FundVal.missing) ∈ d := by
  refine ⟨_, by rw [get_fundamentals, h], ?_, by decide, ?_⟩
  · rw [List.map_cons, List.map_map]
    exact congrArg (List.cons "ticker")
      (map_fst_comp_keyed (fun metric =>
        match List.lookup metric ci with
        | some v => FundVal.num v
        | none => FundVal.missing) fundamental_metrics)
  · intro m hm hlook
    exact List.mem_cons_of_mem _
      (List.mem_map.mpr ⟨m, hm, by simp [hlook]⟩)

/-- A strictly increasing date index (the spec's PriceSeries invariant:
strictly increasing by date, no duplicate dates). -/
abbrev DateSorted (s : Series) : Prop :=
  List.Pairwise (fun p q : Int × ℚ => p.1 < q.1) s

lemma foldl_min_le_init (l : Series) (a : Int) :
    l.foldl (fun m q => min m q.1) a ≤ a := by
  induction l generalizing a with
  | nil => exact le_refl a
  | cons p l ih => exact le_trans (ih (min a p.1)) (min_le_left a p.1)

lemma foldl_min_le_mem (l : Series) (a : Int) (p : Int × ℚ) (hp : p ∈ l) :
    l.foldl (fun m q => min m q.1) a ≤ p.1 := by
  induction l generalizing a with
  | nil => cases hp
  | cons q l ih =>
    rcases List.mem_cons.mp hp with h | h
    · subst h
      exact le_trans (foldl_min_le_init l (min a p.1)) (min_le_right a p.1)
    · exact ih (min a q.1) h

lemma foldl_max_init_le (l : Series) (a : Int) :
    a ≤ l.foldl (fun m q => max m q.1) a := by
  induction l generalizing a with
  | nil => exact le_refl a
  | cons p l ih => exact le_trans (le_max_left a p.1) (ih (max a p.1))

lemma foldl_max_mem_le (l : Series) (a : Int) (p : Int × ℚ) (hp : p ∈ l) :
    p.1 ≤ l.foldl (fun m q => max m q.1) a := by
  induction l generalizing a with
  | nil => cases hp
  | cons q l ih =>
    rcases List.mem_cons.mp hp with h | h
    · subst h
      exact le_trans (le_max_right a p.1) (foldl_max_init_le l (max a p.1))
    · exact ih (max a q.1) h

lemma minDate_le_mem (s : Series) (p : Int × ℚ) (hp : p ∈ s) :
    minDate s ≤ p.1 := by
  cases s with
  | nil => cases hp
  | cons q l =>
    rcases List.mem_cons.mp hp with h | h
    · subst h; exact foldl_min_le_init l p.1
    · exact foldl_min_le_mem l q.1 p h

lemma mem_le_maxDate (s : Series) (p : Int × ℚ) (hp : p ∈ s) :
    p.1 ≤ maxDate s := by
  cases s with
  | nil => cases hp
  | cons q l =>
    rcases List.mem_cons.mp hp with h | h
    · subst h; exact foldl_max_init_le l p.1
    · exact foldl_max_mem_le l q.1 p h

lemma foldl_min_of_le (l : Series) (a : Int) (h : ∀ q ∈ l, a ≤ q.1) :
    l.foldl (fun m q => min m q.1) a = a := by
  induction l with
  | nil => rfl
  | cons p l ih =>
    have ha : min a p.1 = a := min_eq_left (h p (List.mem_cons_self p l))
    show l.foldl (fun m q => min m q.1) (min a p.1) = a
    rw [ha]
    exact ih (fun q hq => h q (List.mem_cons_of_mem p hq))

lemma minDate_sorted (p : Int × ℚ) (l : Series) (h : DateSorted (p :: l)) :
    minDate (p :: l) = p.1 :=
  foldl_min_of_le l p.1 (fun q hq => ((List.pairwise_cons.mp h).1 q hq).le)

lemma maxDate_cons_of_lt (p r : Int × ℚ) (l : Series) (h : p.1 < r.1) :
    maxDate (p :: r :: l) = maxDate (r :: l) := by
  show l.foldl (fun m q => max m q.1) (max p.1 r.1) =
    l.foldl (fun m q => max m q.1) r.1
  rw [max_eq_right h.le]

lemma dropWhile_lt_eq_filter (a : Int) :
    ∀ l : Series, DateSorted l →
      l.dropWhile (fun p => decide (p.1 < a)) =
        l.filter (fun p => decide (a ≤ p.1)) := by
  intro l
  induction l with
  | nil => intro _; rfl
  | cons p l ih =>
    intro h
    rcases List.pairwise_cons.mp h with ⟨hhead, htail⟩
    by_cases hp : p.1 < a
    · rw [List.dropWhile_cons_of_pos (by simpa using hp), List.filter_cons,
        if_neg (by simpa using hp.not_le)]
      exact ih htail
    · rw [List.dropWhile_cons_of_neg (by simpa using hp), List.filter_cons,
        if_pos (by simpa using not_lt.mp hp)]
      refine congrArg (List.cons p) (List.filter_eq_self.mpr ?_).symm
      intro q hq
      have : a ≤ q.1 := le_trans (not_lt.mp hp) (hhead q hq).le
      simpa using this

lemma takeWhile_le_eq_filter (b : Int) :
    ∀ l : Series, DateSorted l →
      l.takeWhile (fun p => decide (p.1 ≤ b)) =
        l.filter (fun p => decide (p.1 ≤ b)) := by
  intro l
  induction l with
  | nil => intro _; rfl
  | cons p l ih =>
    intro h
    rcases List.pairwise_cons.mp h with ⟨hhead, htail⟩
    by_cases hp : p.1 ≤ b
    · rw [List.takeWhile_cons_of_pos (by simpa using hp), List.filter_cons,
        if_pos (by simpa using hp)]
      exact congrArg (List.cons p) (ih htail)
    · rw [List.takeWhile_cons_of_neg (by simpa using hp), List.filter_cons,
        if_neg (by simpa using hp)]
      refine (List.filter_eq_nil_iff.mpr ?_).symm
      intro q hq
      have : ¬q.1 ≤ b := fun hc =>
        hp (le_trans (hhead q hq).le hc)
      simpa using this

lemma takeWhile_eq_nil_of_false {α : Type} (p : α → Bool) (l : List α)
    (h : ∀ x ∈ l, p x = false) : l.takeWhile p = [] := by
  cases l with
  | nil => rfl
  | cons x xs =>
    rw [List.takeWhile_cons, h x (List.mem_cons_self x xs)]
    rfl

lemma pct_change_go_length (prev : ℚ) (l : List ℚ) :
    (pct_change_go prev l).length = l.length := by
  induction l generalizing prev with
  | nil => rfl
  | cons c cs ih => simp [pct_change_go, ih]

lemma pct_change_length (l : List ℚ) : (pct_change l).length = l.length := by
  cases l with
  | nil => rfl
  | cons c cs => simp [pct_change, pct_change_go_length]

lemma perf_list_length (t : ℚ) (s : Series) :
    (perf_list t s).length = s.length := by
  rw [perf_list, List.length_map, pct_change_length, closesOf,
    List.length_map]

lemma alignedA_self (A : Series) (h : DateSorted A) :
    alignedA A A = A.tail := by
  cases A with
  | nil => rfl
  | cons p l =>
    have hs : cond_start (p :: l) (p :: l) = p.1 := by
      rw [cond_start, minDate_sorted p l h, max_self]
    rw [alignedA, hs,
      List.dropWhile_cons_of_pos
        (by simp only [decide_eq_true_eq]; omega)]
    cases l with
    | nil => rfl
    | cons r l' =>
      have hpr : p.1 < r.1 :=
        (List.pairwise_cons.mp h).1 r (List.mem_cons_self r l')
      rw [List.dropWhile_cons_of_neg (by simpa using hpr)]
      rfl

lemma takeWhile_le_maxDate_sub_one (A : Series) (h : DateSorted A) :
    A.takeWhile (fun q => decide (q.1 ≤ maxDate A - 1)) = A.dropLast := by
  induction A with
  | nil => rfl
  | cons p l ih =>
    cases l with
    | nil =>
      rw [List.takeWhile_cons_of_neg
        (by simp only [maxDate, List.foldl_nil, decide_eq_true_eq]; omega)]
      rfl
    | cons r l' =>
      have hpr : p.1 < r.1 :=
        (List.pairwise_cons.mp h).1 r (List.mem_cons_self r l')
      have hmax : maxDate (p :: r :: l') = maxDate (r :: l') :=
        maxDate_cons_of_lt p r l' hpr
      have hr : r.1 ≤ maxDate (r :: l') :=
        mem_le_maxDate (r :: l') r (List.mem_cons_self r l')
      rw [hmax,
        List.takeWhile_cons_of_pos (by simp only [decide_eq_true_eq]; omega),
        ih (List.pairwise_cons.mp h).2, List.dropLast_cons₂]

lemma alignedB_self (A : Series) (h : DateSorted A) :
    alignedB A A = A.dropLast := by
  cases A with
  | nil => rfl
  | cons p l =>
    have hs : cond_start (p :: l) (p :: l) = p.1 := by
      rw [cond_start, minDate_sorted p l h, max_self]
    have hl : cond_last (p :: l) (p :: l) = maxDate (p :: l) := by
      rw [cond_last, min_self]
    have hdrop :
        (p :: l).dropWhile (fun q => decide (q.1 < p.1)) = p :: l :=
      List.dropWhile_cons_of_neg (by simp)
    rw [alignedB, hs, hl, hdrop]
    exact takeWhile_le_maxDate_sub_one (p :: l) h

/-- Claim C2 (amended): for series with strictly increasing date
indexes, `p_conditional` restricts series B to the conditioning window
[windowStart, windowEnd − 1 day], but restricts series A only from
below, to [windowStart + 1 day, end of series A]: the slice
`loc[start_date + 1 day :]` has no upper bound, so rows of A after
windowEnd are kept. -/
theorem aligned_windows_spec (A B : Series) (hA : DateSorted A)
    (hB : DateSorted B) :
    alignedA A B = A.filter (fun p => decide (cond_start A B + 1 ≤ p.1)) ∧
    alignedB A B = B.filter (fun p =>
      decide (p.1 ≤ cond_last A B - 1) && decide (cond_start A B ≤ p.1)) := by
  constructor
  · exact dropWhile_lt_eq_filter (cond_start A B + 1) A hA
  · rw [alignedB, dropWhile_lt_eq_filter (cond_start A B) B hB,
      takeWhile_le_eq_filter (cond_last A B - 1) _
        (List.Pairwise.filter _ hB),
      List.filter_filter]

/-- Series A of the C2 counterexample: dates 0..3. -/
def A2cx : Series := [(0, 1), (1, 1), (2, 1), (3, 1)]

/-- Series B of the C2 counterexample: dates 0..1, so windowEnd = 1. -/
def B2cx : Series := [(0, 1), (1, 1)]

/-- Counterexample to C2 as stated: the code's slice of series A keeps
dates 1..3, while the window [windowStart + 1 day, windowEnd] claimed by
the spec contains only date 1. -/
theorem alignedA_not_spec_window :
    alignedA A2cx B2cx ≠
      A2cx.filter (fun p =>
        decide (cond_start A2cx B2cx + 1 ≤ p.1) &&
        decide (p.1 ≤ cond_last A2cx B2cx)) := by
  decide

/-- Witness for the amended C2 on the concrete sorted series of the
counterexample. -/
theorem aligned_windows_spec_witness :
    DateSorted A2cx ∧ DateSorted B2cx ∧
      (alignedA A2cx B2cx =
        A2cx.filter (fun p => decide (cond_start A2cx B2cx + 1 ≤ p.1)) ∧
      alignedB A2cx B2cx = B2cx.filter (fun p =>
        decide (p.1 ≤ cond_last A2cx B2cx - 1) &&
        decide (cond_start A2cx B2cx ≤ p.1))) :=
  ⟨by decide, by decide,
    aligned_windows_spec A2cx B2cx (by decide) (by decide)⟩

/-- Claim C3 (amended): when the two date ranges are disjoint with
series A entirely before series B, every aligned window is empty and
`p_conditional` returns NaN — not zero and not an exception. -/
theorem p_conditional_disjoint_nan (A B : Series) (hA : A ≠ [])
    (hB : B ≠ []) (t : ℚ) (hd : maxDate A < minDate B) :
    p_conditional_core A B t = some none := by
  have hA' : alignedA A B = [] := by
    rw [alignedA]
    refine List.dropWhile_eq_nil_iff.mpr ?_
    intro p hp
    have h1 : p.1 ≤ maxDate A := mem_le_maxDate A p hp
    have h2 : minDate B ≤ cond_start A B := le_max_right _ _
    simp only [decide_eq_true_eq]
    omega
  have hB' : alignedB A B = [] := by
    rw [alignedB]
    refine takeWhile_eq_nil_of_false _ _ ?_
    intro q hq
    have hqB : q ∈ B := (List.dropWhile_sublist _).subset hq
    have h1 : minDate B ≤ q.1 := minDate_le_mem B q hqB
    have h2 : cond_last A B ≤ maxDate A := min_le_left _ _
    simp only [decide_eq_false_iff_not]
    omega
  have e1 : A.isEmpty = false := by
    cases A with
    | nil => exact absurd rfl hA
    | cons a l => rfl
  have e2 : B.isEmpty = false := by
    cases B with
    | nil => exact absurd rfl hB
    | cons b l => rfl
  simp [p_conditional_core, selectedPerf, e1, e2, hA', hB', perf_list,
    closesOf, pct_change, maskSelect, selectWhere, boolMean]

/-- Series A of the C3 counterexample: dates 10..11 (the later range). -/
def A3cx : Series := [(10, 1), (11, 1)]

/-- Series B of the C3 counterexample: dates 0..1 (the earlier range). -/
def B3cx : Series := [(0, 1), (1, 1)]

/-- Counterexample to C3 as stated: with disjoint ranges in the order
B-before-A, series A's sliced window is nonempty while series B's is
empty, the boolean mask is unalignable, and the call dies with an
uncaught pandas `IndexingError` instead of returning NaN. -/
theorem p_conditional_disjoint_raises :
    maxDate B3cx < minDate A3cx ∧ p_conditional_core A3cx B3cx 0 = none := by
  constructor
  · decide
  · norm_num [p_conditional_core, selectedPerf, maskSelect, selectWhere,
      perf_list, alignedA, alignedB, cond_start, cond_last, minDate,
      maxDate, pct_change, pct_change_go, performing, closesOf, boolMean,
      A3cx, B3cx, List.filterMap_cons, List.countP_cons, List.countP_nil]

/-- Series A of the C3 witness: a two-row series well before `B3w`. -/
def A3w : Series := [(100, 1), (101, 2)]

/-- Series B of the C3 witness: a two-row series well after `A3w`. -/
def B3w : Series := [(200, 3), (201, 4)]

/-- Witness for the amended C3 on concrete disjoint series with A's
range before B's. -/
theorem p_conditional_disjoint_nan_witness :
    A3w ≠ [] ∧ B3w ≠ [] ∧ maxDate A3w < minDate B3w ∧
      p_conditional_core A3w B3w 0 = some none :=
  ⟨by decide, by decide, by decide,
    p_conditional_disjoint_nan A3w B3w (by decide) (by decide) 0 (by decide)⟩

/-- Claim C7 (amended): self-conditioning at threshold 0 reduces to the
mean of the tail-window performance indicators taken at the positions
where the dropLast-window indicators are true — the empirical frequency
of the series performing on the day after a day on which it performed.
This is a conditional frequency, not the unconditional lagged marginal
of `p_stock_performing`. -/
theorem p_conditional_self_reduction (A : Series) (h : DateSorted A)
    (hne : A ≠ []) :
    p_conditional_core A A 0 =
      some (boolMean
        (selectWhere (perf_list 0 A.dropLast) (perf_list 0 A.tail))) := by
  have e1 : A.isEmpty = false := by
    cases A with
    | nil => exact absurd rfl hne
    | cons a l => rfl
  have hlen : (perf_list 0 A.tail).length ≤ (perf_list 0 A.dropLast).length := by
    rw [perf_list_length, perf_list_length, List.length_tail,
      List.length_dropLast]
  have hsel : selectedPerf A A 0 =
      some (selectWhere (perf_list 0 A.dropLast) (perf_list 0 A.tail)) := by
    rw [selectedPerf, alignedA_self A h, alignedB_self A h, maskSelect,
      if_pos hlen]
  simp only [p_conditional_core, e1, Bool.or_self, hsel]
  rfl

/-- The series `[1, 2, 1, 2]` on dates 0..3, used to separate
self-conditioning from the lagged marginal. -/
def S7 : Series := [(0, 1), (1, 2), (2, 1), (3, 2)]

/-- Counterexample to C7 as stated: on `S7`, self-conditioning gives 0
(the day after each up-day is a down-day) while the marginal
`p_stock_performing` computation on the one-day-lagged window gives 1/2. -/
theorem self_conditioning_ne_lagged_marginal :
    p_conditional_core S7 S7 0 ≠
      some (marginal_prob (closesOf (alignedA S7 S7))) := by
  norm_num [p_conditional_core, selectedPerf, maskSelect, selectWhere,
    perf_list, alignedA, alignedB, cond_start, cond_last, minDate, maxDate,
    pct_change, pct_change_go, performing, closesOf, boolMean,
    marginal_prob, S7, List.filterMap_cons, List.countP_cons,
    List.countP_nil]

/-- Witness for the amended C7 on the concrete sorted series `S7`. -/
theorem p_conditional_self_reduction_witness :
    DateSorted S7 ∧ S7 ≠ [] ∧
      p_conditional_core S7 S7 0 =
        some (boolMean
          (selectWhere (perf_list 0 S7.dropLast) (perf_list 0 S7.tail))) :=
  ⟨by decide, by decide,
    p_conditional_self_reduction S7 (by decide) (by decide)⟩

/-- A full OHLC history frame whose four price columns all equal the
given close column (only `Close` is ever read by the estimator). -/
def mkFrame (dates : List Int) (closes : List ℚ) : Frame :=
  ⟨dates, [("Open", closes), ("High", closes), ("Low", closes),
    ("Close", closes)]⟩

/-- The C1 data environment: ticker `A` closes at 100, 102, 101, 105 and
every other ticker closes at 50, 49, 51, 52, on dates 0..3. -/
def hist1 : String → Frame := fun t =>
  if t = "A" then mkFrame [0, 1, 2, 3] [100, 102, 101, 105]
  else mkFrame [0, 1, 2, 3] [50, 49, 51, 52]

lemma gp_hist1_A : get_price_all_time hist1 "A" "Close" =
    some ⟨[0, 1, 2, 3], [("Close", [100, 102, 101, 105])]⟩ := rfl

lemma gp_hist1_B : get_price_all_time hist1 "B" "Close" =
    some ⟨[0, 1, 2, 3], [("Close", [50, 49, 51, 52])]⟩ := rfl

lemma zip_hist1_A : ([0, 1, 2, 3] : List Int).zip
    ([100, 102, 101, 105] : List ℚ) =
    [(0, 100), (1, 102), (2, 101), (3, 105)] := rfl

lemma zip_hist1_B : ([0, 1, 2, 3] : List Int).zip
    ([50, 49, 51, 52] : List ℚ) =
    [(0, 50), (1, 49), (2, 51), (3, 52)] := rfl

/-- Counterexample to C1 as stated: on the spec's worked example the
code returns 1, not 0.5 — `pct_change` runs after the window slicing,
so the first return of each sliced window is NaN (counted as
not-performing) rather than a return against the day before the
window. -/
theorem conditional_example_not_half :
    p_conditional hist1 "A" "B" 0 ≠ some (some (1 / 2)) := by
  norm_num [p_conditional, gp_hist1_A, gp_hist1_B, lookupCol_close_single,
    zip_hist1_A, zip_hist1_B, p_conditional_core, selectedPerf, maskSelect,
    selectWhere, perf_list, alignedA, alignedB, cond_start, cond_last,
    minDate, maxDate, pct_change, pct_change_go, performing, closesOf,
    boolMean, List.filterMap_cons, List.countP_cons, List.countP_nil,
    List.cons_ne_nil]

/-- Claim C1 (amended): on closes A = [100, 102, 101, 105] and
B = [50, 49, 51, 52] over four shared dates, `p_conditional` at
threshold 0 returns 1: within the sliced windows B performs only at the
last position, and there A also performs. -/
theorem conditional_example_value :
    p_conditional hist1 "A" "B" 0 = some (some 1) := by
  norm_num [p_conditional, gp_hist1_A, gp_hist1_B, lookupCol_close_single,
    zip_hist1_A, zip_hist1_B, p_conditional_core, selectedPerf, maskSelect,
    selectWhere, perf_list, alignedA, alignedB, cond_start, cond_last,
    minDate, maxDate, pct_change, pct_change_go, performing, closesOf,
    boolMean, List.filterMap_cons, List.countP_cons, List.countP_nil,
    List.cons_ne_nil]

/-- Claim C4: whenever the evaluation subsequence (series A's
performance indicators at the positions where series B performs) is
defined, the estimator returns NaN exactly when that subsequence is
empty, and otherwise a probability within [0, 1]. -/
theorem p_conditional_range (A B : Series) (t : ℚ) (sel : List Bool)
    (hA : A ≠ []) (hB : B ≠ []) (hsel : selectedPerf A B t = some sel) :
    (sel = [] → p_conditional_core A B t = some none) ∧
    (sel ≠ [] →
      ∃ q, p_conditional_core A B t = some (some q) ∧ 0 ≤ q ∧ q ≤ 1) := by
  have e1 : A.isEmpty = false := by
    cases A with
    | nil => exact absurd rfl hA
    | cons a l => rfl
  have e2 : B.isEmpty = false := by
    cases B with
    | nil => exact absurd rfl hB
    | cons b l => rfl
  have hcore : p_conditional_core A B t = some (boolMean sel) := by
    simp only [p_conditional_core, e1, e2, Bool.or_self, hsel]
    rfl
  constructor
  · intro h
    subst h
    rw [hcore]
    rfl
  · intro h
    have hne : sel.isEmpty = false := by
      cases sel with
      | nil => exact absurd rfl h
      | cons b l => rfl
    have hpos : 0 < (sel.length : ℚ) := by
      have : 0 < sel.length := List.length_pos.mpr h
      exact_mod_cast this
    refine ⟨(sel.countP id : ℚ) / (sel.length : ℚ), ?_, ?_, ?_⟩
    · rw [hcore, boolMean, hne]
      rfl
    · exact div_nonneg (Nat.cast_nonneg _) (Nat.cast_nonneg _)
    · rw [div_le_one hpos]
      exact_mod_cast List.countP_le_length id

/-- The three-row series with strictly rising closes used as the C4
witness input. -/
def S4w : Series := [(0, 1), (1, 2), (2, 3)]

/-- Witness for C4 on `S4w` conditioned on itself: the selected
subsequence is `[true]` and the returned probability is in [0, 1]. -/
theorem p_conditional_range_witness :
    S4w ≠ [] ∧ selectedPerf S4w S4w 0 = some [true] ∧
      (([true] = ([] : List Bool) →
          p_conditional_core S4w S4w 0 = some none) ∧
        ([true] ≠ ([] : List Bool) →
          ∃ q, p_conditional_core S4w S4w 0 = some (some q) ∧
            0 ≤ q ∧ q ≤ 1)) :=
  ⟨by decide,
    by norm_num [selectedPerf, maskSelect, selectWhere, perf_list,
      alignedA, alignedB, cond_start, cond_last, minDate, maxDate,
      pct_change, pct_change_go, performing, closesOf, S4w,
      List.filterMap_cons],
    p_conditional_range S4w S4w 0 [true] (by decide) (by decide)
      (by norm_num [selectedPerf, maskSelect, selectWhere, perf_list,
        alignedA, alignedB, cond_start, cond_last, minDate, maxDate,
        pct_change, pct_change_go, performing, closesOf, S4w,
        List.filterMap_cons])⟩

lemma lookupCol_close_of_open (d : List Int) (o : List ℚ) :
    lookupCol "Close" ⟨d, [("Open", o)]⟩ = none := rfl

lemma lookupCol_close_of_high (d : List Int) (hi : List ℚ) :
    lookupCol "Close" ⟨d, [("High", hi)]⟩ = none := rfl

lemma lookupCol_close_of_low (d : List Int) (lo : List ℚ) :
    lookupCol "Close" ⟨d, [("Low", lo)]⟩ = none := rfl

lemma get_price_single_columns (hist : String → Frame) (t : String)
    (o hi lo c : List ℚ)
    (ho : lookupCol "Open" (hist t) = some o)
    (hh : lookupCol "High" (hist t) = some hi)
    (hl : lookupCol "Low" (hist t) = some lo)
    (hc : lookupCol "Close" (hist t) = some c) :
    get_price_all_time hist t "Open" = some ⟨(hist t).dates, [("Open", o)]⟩ ∧
    get_price_all_time hist t "High" = some ⟨(hist t).dates, [("High", hi)]⟩ ∧
    get_price_all_time hist t "Low" = some ⟨(hist t).dates, [("Low", lo)]⟩ ∧
    get_price_all_time hist t "Close" =
      some ⟨(hist t).dates, [("Close", c)]⟩ ∧
    get_price_all_time hist t "All" = some (hist t) := by
  refine ⟨?_, ?_, ?_, ?_, ?_⟩ <;>
    simp [get_price_all_time, ho, hh, hl, hc]

/-- A history frame offering all four OHLC price columns. -/
abbrev hasOHLC (f : Frame) : Prop :=
  (lookupCol "Open" f).isSome = true ∧ (lookupCol "High" f).isSome = true ∧
  (lookupCol "Low" f).isSome = true ∧ (lookupCol "Close" f).isSome = true

/-- Claim C10: `p_stock_performing` always reads the `Close` column of
whatever single-column frame `get_price_all_time` returns, so on a
standard OHLC history it succeeds for price_type `Close` and `All` but
dies with an uncaught error for `Open`, `High` and `Low`. -/
theorem p_stock_performing_close_only (hist : String → Frame) (t : String)
    (h : hasOHLC (hist t)) :
    p_stock_performing hist t "Open" = none ∧
    p_stock_performing hist t "High" = none ∧
    p_stock_performing hist t "Low" = none ∧
    (∃ v, p_stock_performing hist t "Close" = some v) ∧
    (∃ v, p_stock_performing hist t "All" = some v) := by
  obtain ⟨ho, hh, hl, hc⟩ := h
  rw [Option.isSome_iff_exists] at ho hh hl hc
  obtain ⟨o, ho⟩ := ho
  obtain ⟨hi, hh⟩ := hh
  obtain ⟨lo, hl⟩ := hl
  obtain ⟨c, hc⟩ := hc
  obtain ⟨go, gh, gl, gc, ga⟩ :=
    get_price_single_columns hist t o hi lo c ho hh hl hc
  refine ⟨?_, ?_, ?_, ⟨marginal_prob c, ?_⟩, ⟨marginal_prob c, ?_⟩⟩
  · simp only [p_stock_performing, go, lookupCol_close_of_open]
  · simp only [p_stock_performing, gh, lookupCol_close_of_high]
  · simp only [p_stock_performing, gl, lookupCol_close_of_low]
  · simp only [p_stock_performing, gc, lookupCol_close_single]
  · simp only [p_stock_performing, ga, hc]

/-- The concrete two-day history used as the C10 witness. -/
def frameW : Frame := mkFrame [0, 1] [1, 2]

/-- The C10 witness environment: every ticker has history `frameW`. -/
def histW : String → Frame := fun _ => frameW

/-- Witness for C10 on the concrete environment `histW`. -/
theorem p_stock_performing_close_only_witness :
    hasOHLC (histW "T") ∧
      (p_stock_performing histW "T" "Open" = none ∧
       p_stock_performing histW "T" "High" = none ∧
       p_stock_performing histW "T" "Low" = none ∧
       (∃ v, p_stock_performing histW "T" "Close" = some v) ∧
       (∃ v, p_stock_performing histW "T" "All" = some v)) :=
  ⟨by decide, p_stock_performing_close_only histW "T" (by decide)⟩

/-- The C9 witness provider data: ticker `T` is known and has only the
`marketCap` metric. -/
def infoW : String → Option (List (String × ℚ)) := fun t =>
  if t = "T" then some [("marketCap", 5)] else none

/-- Witness for C9 on the environment `infoW`: the mapping holds all 22
keys and every metric other than `marketCap` carries the `None`
marker. -/
theorem get_fundamentals_keys_witness :
    ∃ d, get_fundamentals infoW "T" = some d ∧
      d.map Prod.fst = "ticker" :: fundamental_metrics ∧
      fundamental_metrics.length = 21 ∧
      ∀ m ∈ fundamental_metrics,
        ([("marketCap", (5 : ℚ))] : List (String × ℚ)).lookup m = none →
          (m, FundVal.missing) ∈ d :=
  get_fundamentals_keys infoW "T" [("marketCap", 5)] rfl
